import Mathlib

/-!
Shallow embedding of `src/apps/rush-lib/src/cli/actions/PublishAction.ts`
(the `PublishAction` class of the web-build-tools repository).

The action is an orchestration script over three external collaborators
(a git client, an npm registry client, a filesystem).  We embed it as a
function from a configuration (the CLI flags) and a world (the package
map, the loaded change list, the registry's answers, the state of the
working tree) to a trace of external effects together with an optional
error, mirroring the source's control flow statement by statement.
A thrown JS exception is modelled by the `Option RunError` component:
the trace contains exactly the effects emitted before the throw.
-/

namespace PublishSpec

/-- JS truthiness of an optional string parameter value
(`undefined` and the empty string are falsy). -/
def truthy : Option String → Bool
  | some s => !s.isEmpty
  | none => false

/-- Modelled from the spec: the `ChangeType` enum of `ChangeManagement.ts`
(not part of the excerpt), `enum{none, dependency, patch, minor, major, hotfix}`,
with numeric ranks in declaration order.  The source only compares values
against `dependency` and `hotfix`. -/
inductive ChangeType
  | none
  | dependency
  | patch
  | minor
  | major
  | hotfix
deriving DecidableEq, Repr

/-- The numeric value of a `ChangeType` member, used by the source's
`change.changeType > ChangeType.dependency` comparisons. -/
def ChangeType.rank : ChangeType → Nat
  | .none => 0
  | .dependency => 1
  | .patch => 2
  | .minor => 3
  | .major => 4
  | .hotfix => 5

/-- One change record (`IChangeInfo` from `ChangeManagement.ts`); the fields the
source reads.  `changeType` and `newVersion` may be `undefined` in TS. -/
structure IChangeInfo where
  packageName : String
  changeType : Option ChangeType
  newVersion : Option String
deriving DecidableEq, Repr

/-- The slice of a project's `package.json` that the source reads. -/
structure PackageJson where
  version : String
deriving DecidableEq, Repr

/-- The slice of `RushConfigurationProject` that the source reads. -/
structure RushConfigurationProject where
  packageName : String
  projectFolder : String
  shouldPublish : Bool
  versionPolicyName : Option String
  packageJson : PackageJson
deriving DecidableEq, Repr

/-- The externally observable operations the action performs, in the order
it performs them.  Git operations carry the arguments of the corresponding
`PublishGit` calls; an argument the source leaves to a default is `none`.
`_updateAPIFile` (pure filesystem plumbing) is modelled as a single abstract
effect. -/
inductive Effect
  | validatePolicy
  | regenerateChangelogs
  | checkout (branch : Option String) (createNew : Option Bool)
  | applyChanges (shouldApply : Bool)
  | updateChangelog (shouldApply : Bool)
  | addChanges
  | commit
  | push (branch : Option String)
  | pull
  | merge (branch : String)
  | deleteBranch (branch : String) (requireMerged : Option Bool)
  | addTag (shouldTag : Bool) (packageName : String) (version : Option String)
  | execPublish (shouldExec : Bool) (packageName : String) (args : List String) (folder : String)
  | execPack (shouldExec : Bool) (packageName : String) (folder : String)
  | updateAPIFile (packageName : String)
  | moveTarball (tarballName : String) (destFolder : Option String)
  | log (message : String)
deriving DecidableEq, Repr

/-- How a run can abort: a thrown configuration `Error`, the TS `TypeError`
raised by dereferencing an `undefined` map lookup behind a non-null
assertion, or a failing external publish process. -/
inductive RunError
  | configError (message : String)
  | typeError (packageName : String)
  | externalFailure (packageName : String)
deriving DecidableEq, Repr

/-- The command-line flags of the action (`onDefineParameters`).  String
parameters are `Option String` (`undefined` when not given). -/
structure PublishConfig where
  apply : Bool := false
  targetBranch : Option String := none
  publish : Bool := false
  addCommitDetails : Bool := false
  regenerateChangelogs : Bool := false
  registryUrl : Option String := none
  npmAuthToken : Option String := none
  npmTag : Option String := none
  pack : Bool := false
  releaseFolder : Option String := none
  releaseType : Option String := none
  includeAll : Bool := false
  versionPolicy : Option String := none
  prereleaseName : Option String := none
  suffix : Option String := none
  force : Bool := false
deriving DecidableEq, Repr

/-- The environment of one run: `rushConfiguration.projectsByName` as an
association list, the state of the change folder and working tree, the
registry's published-versions answer per package name, which external
publish processes fail, and the timestamp used for the temp branch name. -/
structure World where
  allPackages : List (String × RushConfigurationProject)
  hasChanges : Bool
  orderedChanges : List IChangeInfo
  hasUncommittedChanges : Bool
  publishedVersions : String → List String
  publishFails : String → Bool
  timestamp : Nat

/-- `Map.get` on the association list (JS `Map` keys are unique; lookup
returns the first binding). -/
def mapGet (m : List (String × RushConfigurationProject)) (k : String) :
    Option RushConfigurationProject :=
  (m.find? (fun kv => kv.1 == k)).map Prod.snd

/-- `_packageExists`: whether the registry's published-versions list for the
package contains the package's current version
(`publishedVersions.indexOf(version) >= 0`). -/
def packageExists (w : World) (packageConfig : RushConfigurationProject) : Bool :=
  (w.publishedVersions packageConfig.packageName).contains packageConfig.packageJson.version

/-- Index of the first occurrence of `"//"` in a character list
(JS `indexOf('//')`), `none` when absent. -/
def listIndexOfDoubleSlash : List Char → Option Nat
  | [] => none
  | c :: rest =>
    match rest with
    | [] => none
    | d :: _ =>
      if c = '/' ∧ d = '/' then some 0
      else (listIndexOfDoubleSlash rest).map (· + 1)

/-- `registryUrl.substring(registryUrl.indexOf('//'))`: JS `substring` clamps
a negative start (indexOf returning -1) to 0. -/
def registrySubstring (url : String) : String :=
  match listIndexOfDoubleSlash url.toList with
  | some i => String.mk (url.toList.drop i)
  | none => url

/-- The registry string of `_npmPublish`: the default npm registry, or the
custom URL from its first `//` on. -/
def npmPublishRegistry (cfg : PublishConfig) : String :=
  if truthy cfg.registryUrl then registrySubstring (cfg.registryUrl.getD "")
  else "//registry.npmjs.org/"

/-- `['publish']` plus the auth-token argument of `_npmPublish` when an npm
auth token is configured. -/
def npmPublishAuthArgs (cfg : PublishConfig) : List String :=
  if truthy cfg.npmAuthToken then
    ["publish", "--" ++ npmPublishRegistry cfg ++ ":_authToken=" ++ cfg.npmAuthToken.getD ""]
  else ["publish"]

/-- The `--tag` argument of `_npmPublish`: the explicit `--tag` parameter
when given, else the hotfix override when set, else nothing. -/
def npmPublishTagArgs (cfg : PublishConfig) (hotfixTagOverride : Option String) : List String :=
  if truthy cfg.npmTag then npmPublishAuthArgs cfg ++ ["--tag", cfg.npmTag.getD ""]
  else if truthy hotfixTagOverride then
    npmPublishAuthArgs cfg ++ ["--tag", hotfixTagOverride.getD ""]
  else npmPublishAuthArgs cfg

/-- The argument list built by `_npmPublish` (`['publish']`, then the auth
token argument, then `--tag` from the explicit parameter or else the hotfix
override, then `--force`). -/
def npmPublishArgs (cfg : PublishConfig) (hotfixTagOverride : Option String) : List String :=
  if cfg.force then npmPublishTagArgs cfg hotfixTagOverride ++ ["--force"]
  else npmPublishTagArgs cfg hotfixTagOverride

/-- `_npmPublish`: look the package up in `projectsByName` (the `!` non-null
assertion makes a missing binding a `TypeError`, though every call site
guards the lookup), and when `shouldPublish` holds, run the package
manager's `publish` command (a dry run unless the `--publish` flag is set);
an actually executed publish fails when the external process fails. -/
def npmPublish (cfg : PublishConfig) (w : World) (hotfixTagOverride : Option String)
    (packageName : String) (packagePath : String) : List Effect × Option RunError :=
  match mapGet w.allPackages packageName with
  | none => ([], some (RunError.typeError packageName))
  | some project =>
    if project.shouldPublish then
      ([Effect.execPublish cfg.publish packageName (npmPublishArgs cfg hotfixTagOverride)
          packagePath],
       if cfg.publish && w.publishFails packageName then
         some (RunError.externalFailure packageName)
       else none)
    else ([], none)

/-- `_calculateTarballName`: npm's tarball naming (strip a leading `@`,
replace `/` by `-`, append `-{version}.tgz`). -/
def calculateTarballName (project : RushConfigurationProject) : String :=
  let packageName := project.packageName
  let name : String :=
    if packageName.toList.head? = some '@' then
      String.mk ((packageName.toList.drop 1).map (fun c => if c = '/' then '-' else c))
    else packageName
  name ++ "-" ++ project.packageJson.version ++ ".tgz"

/-- `_npmPack`: a non-`internal` release type other than `public` or `beta`
is a thrown configuration error; a valid one first synchronizes the API
declaration folders; then the `pack` command runs, and in publish mode the
tarball is moved to the release folder (`none` = the default artifacts
location under the common temp folder). -/
def npmPack (cfg : PublishConfig) (packageName : String)
    (project : RushConfigurationProject) : List Effect × Option RunError :=
  if truthy cfg.releaseType && !(cfg.releaseType == some "internal") then
    if !(cfg.releaseType == some "public") && !(cfg.releaseType == some "beta") then
      ([], some (RunError.configError
        ("Invalid release type \"" ++ cfg.releaseType.getD "" ++ "\"")))
    else
      ([Effect.updateAPIFile packageName,
        Effect.execPack cfg.publish packageName project.projectFolder] ++
       (if cfg.publish then
          [Effect.moveTarball (calculateTarballName project) cfg.releaseFolder]
        else []), none)
  else
    ([Effect.execPack cfg.publish packageName project.projectFolder] ++
     (if cfg.publish then
        [Effect.moveTarball (calculateTarballName project) cfg.releaseFolder]
      else []), none)

/-- Whether a descriptor passes the `_publishAll` qualification test:
`shouldPublish` and (no `--version-policy` filter, or the filter equals the
descriptor's policy name). -/
def qualifies (cfg : PublishConfig) (packageConfig : RushConfigurationProject) : Bool :=
  packageConfig.shouldPublish &&
    (!truthy cfg.versionPolicy || cfg.versionPolicy == packageConfig.versionPolicyName)

/-- The body of the `_publishAll` `forEach` for one `(name, config)` binding;
the `Bool` is this iteration's contribution to the `updated` flag. -/
def publishAllStep (cfg : PublishConfig) (w : World) (packageName : String)
    (packageConfig : RushConfigurationProject) : List Effect × Option RunError × Bool :=
  if qualifies cfg packageConfig then
    if cfg.pack then
      let r := npmPack cfg packageName packageConfig
      (r.1, r.2, false)
    else if cfg.force || !packageExists w packageConfig then
      let r := npmPublish cfg w none packageName packageConfig.projectFolder
      match r.2 with
      | some e => (r.1, some e, false)
      | none =>
        (r.1 ++ [Effect.addTag (cfg.publish && !truthy cfg.registryUrl) packageName
           (some packageConfig.packageJson.version)], none, true)
    else
      ([Effect.log ("Skip " ++ packageName ++ ". Not updated.")], none, false)
  else ([], none, false)

/-- A `forEach` loop over the package bindings that aborts on the first
thrown error, accumulating the trace and the `updated` flag. -/
def foldStepsAll (step : String × RushConfigurationProject → List Effect × Option RunError × Bool) :
    List (String × RushConfigurationProject) → List Effect × Option RunError × Bool
  | [] => ([], none, false)
  | x :: xs =>
    match step x with
    | (t, some e, u) => (t, some e, u)
    | (t, none, u) =>
      let r := foldStepsAll step xs
      (t ++ r.1, r.2.1, u || r.2.2)

/-- JS template interpolation of a possibly-undefined string value. -/
def optValueText : Option String → String
  | some s => s
  | none => "undefined"

/-- `_publishAll`: iterate every binding of `projectsByName`; afterwards,
push the target branch once when some iteration set `updated`. -/
def publishAll (cfg : PublishConfig) (w : World) : List Effect × Option RunError :=
  let startLog : Effect := Effect.log
    ("Rush publish starts with includeAll and version policy " ++ optValueText cfg.versionPolicy)
  let r := foldStepsAll (fun kv => publishAllStep cfg w kv.1 kv.2) w.allPackages
  match r with
  | (t, some e, _) => (startLog :: t, some e)
  | (t, none, u) =>
    (startLog :: t ++ (if u then [Effect.push cfg.targetBranch] else []), none)

/-- The guard `change.changeType && change.changeType > ChangeType.dependency`:
an absent `changeType` is falsy, `ChangeType.none` (numeric 0) is falsy too
but already fails the comparison. -/
def changeTypeAboveDependency : Option ChangeType → Bool
  | some c => decide (ChangeType.dependency.rank < c.rank)
  | none => false

/-- The body of the publish loop of `_publishChanges` for one change record:
a record ranking above `dependency` is resolved to its project; a missing
project or an already-published version is skipped with a diagnostic,
otherwise `_npmPublish` is invoked. -/
def publishChangesStep (cfg : PublishConfig) (w : World) (hotfixTagOverride : Option String)
    (change : IChangeInfo) : List Effect × Option RunError :=
  if changeTypeAboveDependency change.changeType then
    match mapGet w.allPackages change.packageName with
    | some project =>
      if !packageExists w project then
        npmPublish cfg w hotfixTagOverride change.packageName project.projectFolder
      else
        ([Effect.log ("Skip " ++ change.packageName ++ ". Package exists.")], none)
    | none =>
      ([Effect.log ("Skip " ++ change.packageName ++ ". Failed to find its project.")], none)
  else ([], none)

/-- A `for` loop over change records that aborts on the first thrown error,
accumulating the trace. -/
def foldSteps {α : Type} (step : α → List Effect × Option RunError) :
    List α → List Effect × Option RunError
  | [] => ([], none)
  | x :: xs =>
    match step x with
    | (t, some e) => (t, some e)
    | (t, none) =>
      let r := foldSteps step xs
      (t ++ r.1, r.2)

/-- The body of the `_gitAddTags` loop for one change record: the source
dereferences `projectsByName.get(change.packageName)!` without a guard, so a
missing binding is a `TypeError`; `change.newVersion!` is passed through
unchecked. -/
def gitAddTagsStep (cfg : PublishConfig) (w : World) (change : IChangeInfo) :
    List Effect × Option RunError :=
  if changeTypeAboveDependency change.changeType then
    match mapGet w.allPackages change.packageName with
    | none => ([], some (RunError.typeError change.packageName))
    | some project =>
      if project.shouldPublish then
        ([Effect.addTag (cfg.publish && !truthy cfg.registryUrl) change.packageName
            change.newVersion], none)
      else ([], none)
  else ([], none)

/-- `_gitAddTags`: tag every change ranking above `dependency` whose project
has `shouldPublish`. -/
def gitAddTags (cfg : PublishConfig) (w : World) (orderedChanges : List IChangeInfo) :
    List Effect × Option RunError :=
  foldSteps (gitAddTagsStep cfg w) orderedChanges

/-- The scan of the ordered change list for a `hotfix`-typed entry that sets
`_hotfixTagOverride` before the publish loop. -/
def hotfixOverride (w : World) : Option String :=
  if w.orderedChanges.any (fun c => c.changeType == some ChangeType.hotfix) then
    some "hotfix"
  else none

/-- `_publishChanges`: when the change manager has changes, work on a
timestamped temp branch; when applying produced no uncommitted changes, check
out the target branch and delete the temp branch; otherwise commit and push,
compute the hotfix tag override, run the publish pass, then the tag pass,
then push tags and merge back to the target branch. -/
def publishChanges (cfg : PublishConfig) (w : World) : List Effect × Option RunError :=
  if w.hasChanges then
    let tempBranch : String := "publish-" ++ toString w.timestamp
    let t0 : List Effect :=
      [Effect.checkout (some tempBranch) (some true),
       Effect.applyChanges cfg.apply,
       Effect.updateChangelog cfg.apply]
    if w.hasUncommittedChanges then
      let t1 : List Effect :=
        t0 ++ [Effect.addChanges, Effect.commit, Effect.push (some tempBranch)]
      let pubR := foldSteps (publishChangesStep cfg w (hotfixOverride w)) w.orderedChanges
      match pubR with
      | (tp, some e) => (t1 ++ tp, some e)
      | (tp, none) =>
        match gitAddTags cfg w w.orderedChanges with
        | (tt, some e) => (t1 ++ tp ++ tt, some e)
        | (tt, none) =>
          (t1 ++ tp ++ tt ++
            [Effect.push (some tempBranch),
             Effect.checkout cfg.targetBranch none,
             Effect.pull,
             Effect.merge tempBranch,
             Effect.push cfg.targetBranch,
             Effect.deleteBranch tempBranch none], none)
    else
      (t0 ++ [Effect.checkout cfg.targetBranch none,
              Effect.deleteBranch tempBranch (some false)], none)
  else ([], none)

/-- `_validate`: the four parameter-combination checks, in source order. -/
def validateCfg (cfg : PublishConfig) : Option RunError :=
  if cfg.pack && !cfg.includeAll then
    some (RunError.configError "--pack can only be used with --include-all")
  else if truthy cfg.releaseFolder && !cfg.pack then
    some (RunError.configError "--release-folder can only be used with --pack")
  else if truthy cfg.releaseType && !cfg.pack then
    some (RunError.configError "--release-type can only be used with --pack")
  else if truthy cfg.registryUrl && cfg.pack then
    some (RunError.configError "--registry cannot be used with --pack")
  else none

/-- `run`: validate policies, short-circuit on `--regenerate-changelogs`,
validate the parameter combinations, then dispatch on `--include-all`, and
log success. -/
def runAction (cfg : PublishConfig) (w : World) : List Effect × Option RunError :=
  let t0 : List Effect := [Effect.validatePolicy]
  if cfg.regenerateChangelogs then
    (t0 ++ [Effect.log "Regenerating changelogs", Effect.regenerateChangelogs], none)
  else
    match validateCfg cfg with
    | some e => (t0, some e)
    | none =>
      let r := if cfg.includeAll then publishAll cfg w else publishChanges cfg w
      match r with
      | (t, some e) => (t0 ++ t, some e)
      | (t, none) =>
        (t0 ++ t ++ [Effect.log "Rush publish finished successfully."], none)

/-- The value following the first `--tag` argument of a command line, if any. -/
def tagOf : List String → Option String
  | [] => none
  | a :: rest => if a = "--tag" then rest.head? else tagOf rest

/-- Whether an effect is an invocation of the package manager's `publish`
command. -/
def isExecPublish : Effect → Bool
  | Effect.execPublish _ _ _ _ => true
  | _ => false

/-- Whether an effect is a `PublishGit.addTag` call. -/
def isAddTag : Effect → Bool
  | Effect.addTag _ _ _ => true
  | _ => false

/-- Whether an effect is a version-control operation. -/
def isVersionControlOp : Effect → Bool
  | Effect.checkout _ _ => true
  | Effect.addChanges => true
  | Effect.commit => true
  | Effect.push _ => true
  | Effect.pull => true
  | Effect.merge _ => true
  | Effect.deleteBranch _ _ => true
  | Effect.addTag _ _ _ => true
  | _ => false

/-- Whether an effect is a registry/packaging operation (publish, pack, or
tarball move). -/
def isRegistryOp : Effect → Bool
  | Effect.execPublish _ _ _ _ => true
  | Effect.execPack _ _ _ => true
  | Effect.moveTarball _ _ => true
  | _ => false

/-- Whether an effect is a pure diagnostic (policy validation or a console
message). -/
def isBenign : Effect → Bool
  | Effect.validatePolicy => true
  | Effect.log _ => true
  | _ => false

/-! ### Structural lemmas about the loops -/

theorem mem_foldSteps {α : Type} (step : α → List Effect × Option RunError) (xs : List α) :
    ∀ e ∈ (foldSteps step xs).1, ∃ x ∈ xs, e ∈ (step x).1 := by
  induction xs with
  | nil => intro e he; simp [foldSteps] at he
  | cons x xs ih =>
    intro e he
    rw [foldSteps] at he
    rcases h : step x with ⟨t, err⟩
    rw [h] at he
    cases err with
    | some er =>
      simp at he
      exact ⟨x, List.mem_cons_self x xs, by rw [h]; exact he⟩
    | none =>
      simp at he
      rcases he with he | he
      · exact ⟨x, List.mem_cons_self x xs, by rw [h]; exact he⟩
      · rcases ih e he with ⟨y, hy, hey⟩
        exact ⟨y, List.mem_cons_of_mem x hy, hey⟩

theorem foldSteps_err {α : Type} (step : α → List Effect × Option RunError) (xs : List α)
    (e : RunError) (h : (foldSteps step xs).2 = some e) : ∃ x ∈ xs, (step x).2 = some e := by
  induction xs with
  | nil => simp [foldSteps] at h
  | cons x xs ih =>
    rw [foldSteps] at h
    rcases hx : step x with ⟨t, err⟩
    rw [hx] at h
    cases err with
    | some er =>
      simp at h
      exact ⟨x, List.mem_cons_self x xs, by rw [hx, h]⟩
    | none =>
      simp at h
      rcases ih h with ⟨y, hy, hey⟩
      exact ⟨y, List.mem_cons_of_mem x hy, hey⟩

theorem mem_foldStepsAll
    (step : String × RushConfigurationProject → List Effect × Option RunError × Bool)
    (xs : List (String × RushConfigurationProject)) :
    ∀ e ∈ (foldStepsAll step xs).1, ∃ x ∈ xs, e ∈ (step x).1 := by
  induction xs with
  | nil => intro e he; simp [foldStepsAll] at he
  | cons x xs ih =>
    intro e he
    rw [foldStepsAll] at he
    rcases h : step x with ⟨t, err, u⟩
    rw [h] at he
    cases err with
    | some er =>
      simp at he
      exact ⟨x, List.mem_cons_self x xs, by rw [h]; exact he⟩
    | none =>
      simp at he
      rcases he with he | he
      · exact ⟨x, List.mem_cons_self x xs, by rw [h]; exact he⟩
      · rcases ih e he with ⟨y, hy, hey⟩
        exact ⟨y, List.mem_cons_of_mem x hy, hey⟩

/-! ### Characterization of the effects each method can emit -/

theorem mem_npmPublish (cfg : PublishConfig) (w : World) (ho : Option String)
    (n f : String) :
    ∀ e ∈ (npmPublish cfg w ho n f).1,
      ∃ p, mapGet w.allPackages n = some p ∧ p.shouldPublish = true ∧
        e = Effect.execPublish cfg.publish n (npmPublishArgs cfg ho) f := by
  intro e he
  unfold npmPublish at he
  split at he
  · simp at he
  · rename_i p heq
    split at he
    · rename_i hsp
      simp at he
      exact ⟨p, heq, hsp, he⟩
    · simp at he

theorem mem_npmPack (cfg : PublishConfig) (n : String) (p : RushConfigurationProject) :
    ∀ e ∈ (npmPack cfg n p).1,
      e = Effect.updateAPIFile n ∨ e = Effect.execPack cfg.publish n p.projectFolder ∨
      e = Effect.moveTarball (calculateTarballName p) cfg.releaseFolder := by
  intro e he
  unfold npmPack at he
  split at he
  · split at he
    · simp at he
    · rcases List.mem_append.mp he with h | h
      · simp at h
        rcases h with h | h
        · exact Or.inl h
        · exact Or.inr (Or.inl h)
      · split at h
        · simp at h; exact Or.inr (Or.inr h)
        · simp at h
  · rcases List.mem_append.mp he with h | h
    · simp at h; exact Or.inr (Or.inl h)
    · split at h
      · simp at h; exact Or.inr (Or.inr h)
      · simp at h

theorem mem_publishChangesStep (cfg : PublishConfig) (w : World) (ho : Option String)
    (c : IChangeInfo) :
    ∀ e ∈ (publishChangesStep cfg w ho c).1,
      (∃ msg, e = Effect.log msg) ∨
      (changeTypeAboveDependency c.changeType = true ∧
        ∃ p, mapGet w.allPackages c.packageName = some p ∧ p.shouldPublish = true ∧
          packageExists w p = false ∧
          e = Effect.execPublish cfg.publish c.packageName (npmPublishArgs cfg ho)
                p.projectFolder) := by
  intro e he
  unfold publishChangesStep at he
  split at he
  case isTrue hdep =>
    split at he
    · rename_i p heq
      split at he
      case isTrue hex =>
        simp only [Bool.not_eq_true'] at hex
        rcases mem_npmPublish cfg w ho c.packageName p.projectFolder e he with
          ⟨p2, hp2, hsp2, hee⟩
        rw [heq] at hp2
        cases hp2
        exact Or.inr ⟨hdep, p, heq, hsp2, hex, hee⟩
      case isFalse =>
        simp at he
        exact Or.inl ⟨_, he⟩
    · simp at he
      exact Or.inl ⟨_, he⟩
  case isFalse => simp at he

theorem mem_gitAddTagsStep (cfg : PublishConfig) (w : World) (c : IChangeInfo) :
    ∀ e ∈ (gitAddTagsStep cfg w c).1,
      changeTypeAboveDependency c.changeType = true ∧
      e = Effect.addTag (cfg.publish && !truthy cfg.registryUrl) c.packageName c.newVersion := by
  intro e he
  unfold gitAddTagsStep at he
  split at he
  case isTrue hdep =>
    split at he
    · simp at he
    · split at he
      · simp at he
        exact ⟨hdep, he⟩
      · simp at he
  case isFalse => simp at he

theorem gitAddTagsStep_err (cfg : PublishConfig) (w : World) (c : IChangeInfo)
    (e : RunError) (h : (gitAddTagsStep cfg w c).2 = some e) :
    e = RunError.typeError c.packageName := by
  unfold gitAddTagsStep at h
  split at h
  · split at h
    · simp at h
      exact h.symm
    · split at h <;> simp at h
  · simp at h

theorem mem_publishAllStep (cfg : PublishConfig) (w : World) (n : String)
    (p : RushConfigurationProject) :
    ∀ e ∈ (publishAllStep cfg w n p).1,
      (isExecPublish e = true →
        (cfg.force = true ∨ packageExists w p = false) ∧
        ∃ p2, mapGet w.allPackages n = some p2 ∧ p2.shouldPublish = true ∧
          e = Effect.execPublish cfg.publish n (npmPublishArgs cfg none) p.projectFolder) ∧
      (∀ b nn v, e = Effect.addTag b nn v → b = (cfg.publish && !truthy cfg.registryUrl)) ∧
      (∀ br, e ≠ Effect.push br) := by
  intro e he
  simp only [publishAllStep] at he
  split at he
  · split at he
    · rcases mem_npmPack cfg n p e he with h | h | h <;>
        (subst h; refine ⟨by simp [isExecPublish], by simp, by simp⟩)
    · split at he
      case isTrue hforce =>
        split at he
        · rcases mem_npmPublish cfg w none n p.projectFolder e he with ⟨p2, hp2, hsp2, hee⟩
          subst hee
          refine ⟨fun _ => ⟨?_, p2, hp2, hsp2, rfl⟩, by simp, by simp⟩
          rcases Bool.or_eq_true _ _ |>.mp hforce with h | h
          · exact Or.inl h
          · exact Or.inr (by simpa using h)
        · rcases List.mem_append.mp he with h | h
          · rcases mem_npmPublish cfg w none n p.projectFolder e h with ⟨p2, hp2, hsp2, hee⟩
            subst hee
            refine ⟨fun _ => ⟨?_, p2, hp2, hsp2, rfl⟩, by simp, by simp⟩
            rcases Bool.or_eq_true _ _ |>.mp hforce with h2 | h2
            · exact Or.inl h2
            · exact Or.inr (by simpa using h2)
          · simp at h
            subst h
            refine ⟨by simp [isExecPublish], ?_, by simp⟩
            intro b nn v hb
            cases hb
            rfl
      case isFalse =>
        simp at he
        subst he
        exact ⟨by simp [isExecPublish], by simp, by simp⟩
  · simp at he

theorem publishAllStep_updated (cfg : PublishConfig) (w : World) (n : String)
    (p : RushConfigurationProject) (h : (publishAllStep cfg w n p).2.1 = none) :
    (publishAllStep cfg w n p).2.2 =
      (qualifies cfg p && !cfg.pack && (cfg.force || !packageExists w p)) := by
  by_cases hq : qualifies cfg p = true
  · by_cases hp : cfg.pack = true
    · simp [publishAllStep, hq, hp]
    · by_cases hf : (cfg.force || !packageExists w p) = true
      · rcases hnp : (npmPublish cfg w none n p.projectFolder).2 with _ | er
        · simp [publishAllStep, hq, hp, hf, hnp]
        · exfalso
          simp [publishAllStep, hq, hp, hf, hnp] at h
      · simp only [Bool.not_eq_true] at hp
        simp only [Bool.not_eq_true] at hf
        simp [publishAllStep, hq, hp, hf]
  · simp only [Bool.not_eq_true] at hq
    simp [publishAllStep, hq]

theorem publishAllStep_invalidRelease (cfg : PublishConfig) (w : World) (n : String)
    (p : RushConfigurationProject)
    (hpack : cfg.pack = true) (h1 : truthy cfg.releaseType = true)
    (h2 : (cfg.releaseType == some "internal") = false)
    (h3 : (cfg.releaseType == some "public") = false)
    (h4 : (cfg.releaseType == some "beta") = false) :
    publishAllStep cfg w n p =
      if qualifies cfg p then
        ([], some (RunError.configError
          ("Invalid release type \"" ++ cfg.releaseType.getD "" ++ "\"")), false)
      else ([], none, false) := by
  by_cases hq : qualifies cfg p = true
  · simp [publishAllStep, hq, hpack, npmPack, h1, h2, h3, h4]
  · simp only [Bool.not_eq_true] at hq
    simp [publishAllStep, hq]

theorem foldStepsAll_err_free
    (step : String × RushConfigurationProject → List Effect × Option RunError × Bool)
    (xs : List (String × RushConfigurationProject))
    (h : (foldStepsAll step xs).2.1 = none) : ∀ x ∈ xs, (step x).2.1 = none := by
  induction xs with
  | nil => intro x hx; simp at hx
  | cons x xs ih =>
    rw [foldStepsAll] at h
    rcases hx : step x with ⟨t, err, u⟩
    rw [hx] at h
    cases err with
    | some er => simp at h
    | none =>
      intro y hy
      rcases List.mem_cons.mp hy with rfl | hy
      · rw [hx]
      · exact ih (by simpa using h) y hy

theorem foldStepsAll_updated
    (step : String × RushConfigurationProject → List Effect × Option RunError × Bool)
    (xs : List (String × RushConfigurationProject))
    (h : (foldStepsAll step xs).2.1 = none) :
    (foldStepsAll step xs).2.2 = xs.any (fun x => (step x).2.2) := by
  induction xs with
  | nil => simp [foldStepsAll]
  | cons x xs ih =>
    rw [foldStepsAll] at h ⊢
    rcases hx : step x with ⟨t, err, u⟩
    rw [hx] at h
    cases err with
    | some er => simp at h
    | none =>
      have h2 : (foldStepsAll step xs).2.1 = none := by simpa using h
      simp [hx, ih h2]

theorem foldStepsAll_const_err
    (step : String × RushConfigurationProject → List Effect × Option RunError × Bool)
    (q : String × RushConfigurationProject → Bool) (err : RunError)
    (hstep : ∀ x, step x = if q x then ([], some err, false) else ([], none, false))
    (xs : List (String × RushConfigurationProject)) :
    foldStepsAll step xs =
      if xs.any q then ([], some err, false) else ([], none, false) := by
  induction xs with
  | nil => simp [foldStepsAll]
  | cons x xs ih =>
    rw [foldStepsAll, hstep x]
    by_cases hqx : q x = true
    · simp [hqx]
    · simp only [Bool.not_eq_true] at hqx
      by_cases h2 : xs.any q = true
      · simp [hqx, h2, ih]
      · simp only [Bool.not_eq_true] at h2
        simp [hqx, h2, ih]

/-! ### Routing every effect of a run back to its origin -/

theorem mem_publishAll_cases (cfg : PublishConfig) (w : World) :
    ∀ e ∈ (publishAll cfg w).1,
      (isExecPublish e = false ∧ isAddTag e = false) ∨
      ∃ kv, kv ∈ w.allPackages ∧ e ∈ (publishAllStep cfg w kv.1 kv.2).1 := by
  intro e he
  simp only [publishAll] at he
  split at he
  next t er u heq =>
    rcases List.mem_cons.mp he with rfl | he
    · exact Or.inl ⟨rfl, rfl⟩
    · have ht : e ∈ (foldStepsAll (fun kv => publishAllStep cfg w kv.1 kv.2) w.allPackages).1 := by
        rw [heq]
        exact he
      rcases mem_foldStepsAll _ _ e ht with ⟨kv, hkv, hekv⟩
      exact Or.inr ⟨kv, hkv, hekv⟩
  next t u heq =>
    rcases List.mem_cons.mp he with rfl | he
    · exact Or.inl ⟨rfl, rfl⟩
    · rcases List.mem_append.mp he with he | he
      · have ht : e ∈ (foldStepsAll (fun kv => publishAllStep cfg w kv.1 kv.2) w.allPackages).1 := by
          rw [heq]
          exact he
        rcases mem_foldStepsAll _ _ e ht with ⟨kv, hkv, hekv⟩
        exact Or.inr ⟨kv, hkv, hekv⟩
      · split at he
        · simp at he
          subst he
          exact Or.inl ⟨rfl, rfl⟩
        · simp at he

theorem mem_publishChanges_cases (cfg : PublishConfig) (w : World) :
    ∀ e ∈ (publishChanges cfg w).1,
      (isExecPublish e = false ∧ isAddTag e = false) ∨
      (∃ c, c ∈ w.orderedChanges ∧ e ∈ (publishChangesStep cfg w (hotfixOverride w) c).1) ∨
      (∃ c, c ∈ w.orderedChanges ∧ e ∈ (gitAddTagsStep cfg w c).1) := by
  intro e he
  simp only [publishChanges] at he
  split at he
  · split at he
    · -- uncommitted changes exist: commit, publish pass, tag pass, merge back
      split at he
      next tp er heq =>
        rcases List.mem_append.mp he with he | he
        · simp at he
          rcases he with rfl | rfl | rfl | rfl | rfl | rfl <;> exact Or.inl ⟨rfl, rfl⟩
        · have ht : e ∈ (foldSteps (publishChangesStep cfg w (hotfixOverride w))
              w.orderedChanges).1 := by
            rw [heq]
            exact he
          rcases mem_foldSteps _ _ e ht with ⟨c, hc, hec⟩
          exact Or.inr (Or.inl ⟨c, hc, hec⟩)
      next tp heq =>
        split at he
        next tt er2 heq2 =>
          rcases List.mem_append.mp he with he | he
          · rcases List.mem_append.mp he with he | he
            · simp at he
              rcases he with rfl | rfl | rfl | rfl | rfl | rfl <;> exact Or.inl ⟨rfl, rfl⟩
            · have ht : e ∈ (foldSteps (publishChangesStep cfg w (hotfixOverride w))
                  w.orderedChanges).1 := by
                rw [heq]
                exact he
              rcases mem_foldSteps _ _ e ht with ⟨c, hc, hec⟩
              exact Or.inr (Or.inl ⟨c, hc, hec⟩)
          · have ht : e ∈ (foldSteps (gitAddTagsStep cfg w) w.orderedChanges).1 := by
              have h3 : gitAddTags cfg w w.orderedChanges =
                  foldSteps (gitAddTagsStep cfg w) w.orderedChanges := rfl
              rw [← h3, heq2]
              exact he
            rcases mem_foldSteps _ _ e ht with ⟨c, hc, hec⟩
            exact Or.inr (Or.inr ⟨c, hc, hec⟩)
        next tt heq2 =>
          rcases List.mem_append.mp he with he | he
          · rcases List.mem_append.mp he with he | he
            · rcases List.mem_append.mp he with he | he
              · simp at he
                rcases he with rfl | rfl | rfl | rfl | rfl | rfl <;> exact Or.inl ⟨rfl, rfl⟩
              · have ht : e ∈ (foldSteps (publishChangesStep cfg w (hotfixOverride w))
                    w.orderedChanges).1 := by
                  rw [heq]
                  exact he
                rcases mem_foldSteps _ _ e ht with ⟨c, hc, hec⟩
                exact Or.inr (Or.inl ⟨c, hc, hec⟩)
            · have ht : e ∈ (foldSteps (gitAddTagsStep cfg w) w.orderedChanges).1 := by
                have h3 : gitAddTags cfg w w.orderedChanges =
                    foldSteps (gitAddTagsStep cfg w) w.orderedChanges := rfl
                rw [← h3, heq2]
                exact he
              rcases mem_foldSteps _ _ e ht with ⟨c, hc, hec⟩
              exact Or.inr (Or.inr ⟨c, hc, hec⟩)
          · simp at he
            rcases he with rfl | rfl | rfl | rfl | rfl | rfl <;> exact Or.inl ⟨rfl, rfl⟩
    · -- nothing to commit: abandon the temp branch
      simp at he
      rcases he with rfl | rfl | rfl | rfl | rfl <;> exact Or.inl ⟨rfl, rfl⟩
  · simp at he

theorem mem_runAction_cases (cfg : PublishConfig) (w : World) :
    ∀ e ∈ (runAction cfg w).1,
      (isExecPublish e = false ∧ isAddTag e = false) ∨
      (cfg.includeAll = true ∧
        ∃ kv, kv ∈ w.allPackages ∧ e ∈ (publishAllStep cfg w kv.1 kv.2).1) ∨
      (cfg.includeAll = false ∧
        ∃ c, c ∈ w.orderedChanges ∧ e ∈ (publishChangesStep cfg w (hotfixOverride w) c).1) ∨
      (cfg.includeAll = false ∧
        ∃ c, c ∈ w.orderedChanges ∧ e ∈ (gitAddTagsStep cfg w c).1) := by
  intro e he
  simp only [runAction] at he
  split at he
  · simp at he
    rcases he with rfl | rfl | rfl <;> exact Or.inl ⟨rfl, rfl⟩
  · split at he
    · simp at he
      subst he
      exact Or.inl ⟨rfl, rfl⟩
    · by_cases hIA : cfg.includeAll = true
      · rw [if_pos hIA] at he
        split at he
        next t er heq =>
          rcases List.mem_append.mp he with he | he
          · simp at he
            subst he
            exact Or.inl ⟨rfl, rfl⟩
          · have ht : e ∈ (publishAll cfg w).1 := by
              rw [heq]
              exact he
            rcases mem_publishAll_cases cfg w e ht with h | ⟨kv, hkv, hekv⟩
            · exact Or.inl h
            · exact Or.inr (Or.inl ⟨hIA, kv, hkv, hekv⟩)
        next t heq =>
          rcases List.mem_append.mp he with he | he
          · rcases List.mem_append.mp he with he | he
            · simp at he
              subst he
              exact Or.inl ⟨rfl, rfl⟩
            · have ht : e ∈ (publishAll cfg w).1 := by
                rw [heq]
                exact he
              rcases mem_publishAll_cases cfg w e ht with h | ⟨kv, hkv, hekv⟩
              · exact Or.inl h
              · exact Or.inr (Or.inl ⟨hIA, kv, hkv, hekv⟩)
          · simp at he
            subst he
            exact Or.inl ⟨rfl, rfl⟩
      · simp only [Bool.not_eq_true] at hIA
        rw [hIA] at he
        simp only [if_false, Bool.false_eq_true] at he
        split at he
        next t er heq =>
          rcases List.mem_append.mp he with he | he
          · simp at he
            subst he
            exact Or.inl ⟨rfl, rfl⟩
          · have ht : e ∈ (publishChanges cfg w).1 := by
              rw [heq]
              exact he
            rcases mem_publishChanges_cases cfg w e ht with h | ⟨c, hc, hec⟩ | ⟨c, hc, hec⟩
            · exact Or.inl h
            · exact Or.inr (Or.inr (Or.inl ⟨hIA, c, hc, hec⟩))
            · exact Or.inr (Or.inr (Or.inr ⟨hIA, c, hc, hec⟩))
        next t heq =>
          rcases List.mem_append.mp he with he | he
          · rcases List.mem_append.mp he with he | he
            · simp at he
              subst he
              exact Or.inl ⟨rfl, rfl⟩
            · have ht : e ∈ (publishChanges cfg w).1 := by
                rw [heq]
                exact he
              rcases mem_publishChanges_cases cfg w e ht with h | ⟨c, hc, hec⟩ | ⟨c, hc, hec⟩
              · exact Or.inl h
              · exact Or.inr (Or.inr (Or.inl ⟨hIA, c, hc, hec⟩))
              · exact Or.inr (Or.inr (Or.inr ⟨hIA, c, hc, hec⟩))
          · simp at he
            subst he
            exact Or.inl ⟨rfl, rfl⟩

/-! ### Concrete fixtures used by the witnesses -/

/-- An inert world: no packages, no changes, an empty registry. -/
def wBase : World :=
  { allPackages := [], hasChanges := false, orderedChanges := [],
    hasUncommittedChanges := false, publishedVersions := fun _ => [],
    publishFails := fun _ => false, timestamp := 0 }

/-- A publishable project used in the witnesses. -/
def projA : RushConfigurationProject :=
  { packageName := "a", projectFolder := "pkgs/a", shouldPublish := true,
    versionPolicyName := none, packageJson := { version := "1.0.0" } }

/-! ### The claims -/

/-- C10: when the regenerate-changelogs flag is set, the run regenerates the
changelogs and returns immediately: parameter validation and both publish
modes are skipped, so the run never raises a configuration error and never
performs a version-control or registry operation, whatever the other flags. -/
theorem C10_regenerate_short_circuit (cfg : PublishConfig) (w : World)
    (h : cfg.regenerateChangelogs = true) :
    runAction cfg w =
      ([Effect.validatePolicy, Effect.log "Regenerating changelogs",
        Effect.regenerateChangelogs], none) ∧
    (∀ msg, (runAction cfg w).2 ≠ some (RunError.configError msg)) ∧
    ∀ e ∈ (runAction cfg w).1, isVersionControlOp e = false ∧ isRegistryOp e = false := by
  have heq : runAction cfg w =
      ([Effect.validatePolicy, Effect.log "Regenerating changelogs",
        Effect.regenerateChangelogs], none) := by
    simp [runAction, h]
  refine ⟨heq, ?_, ?_⟩
  · intro msg
    rw [heq]
    simp
  · intro e he
    rw [heq] at he
    simp at he
    rcases he with rfl | rfl | rfl <;> exact ⟨rfl, rfl⟩

/-- Witness for C10, at a configuration whose other flags would otherwise be
an invalid combination (pack without include-all). -/
theorem C10_witness :
    runAction { regenerateChangelogs := true, pack := true } wBase =
      ([Effect.validatePolicy, Effect.log "Regenerating changelogs",
        Effect.regenerateChangelogs], none) :=
  (C10_regenerate_short_circuit { regenerateChangelogs := true, pack := true } wBase rfl).1

/-- C5: in publish-changes mode, when applying the change list produced no
uncommitted changes, the run checks out the target branch and deletes the
temp branch, performing no push, commit, or merge. -/
theorem C5_noop_when_no_uncommitted (cfg : PublishConfig) (w : World)
    (hr : cfg.regenerateChangelogs = false) (hia : cfg.includeAll = false)
    (hv : validateCfg cfg = none) (hc : w.hasChanges = true)
    (hu : w.hasUncommittedChanges = false) :
    runAction cfg w =
      ([Effect.validatePolicy,
        Effect.checkout (some ("publish-" ++ toString w.timestamp)) (some true),
        Effect.applyChanges cfg.apply,
        Effect.updateChangelog cfg.apply,
        Effect.checkout cfg.targetBranch none,
        Effect.deleteBranch ("publish-" ++ toString w.timestamp) (some false),
        Effect.log "Rush publish finished successfully."], none) ∧
    ∀ e ∈ (runAction cfg w).1,
      (∀ br, e ≠ Effect.push br) ∧ e ≠ Effect.commit ∧ (∀ br, e ≠ Effect.merge br) := by
  have heq : runAction cfg w =
      ([Effect.validatePolicy,
        Effect.checkout (some ("publish-" ++ toString w.timestamp)) (some true),
        Effect.applyChanges cfg.apply,
        Effect.updateChangelog cfg.apply,
        Effect.checkout cfg.targetBranch none,
        Effect.deleteBranch ("publish-" ++ toString w.timestamp) (some false),
        Effect.log "Rush publish finished successfully."], none) := by
    simp [runAction, publishChanges, hr, hia, hv, hc, hu]
  refine ⟨heq, ?_⟩
  intro e he
  rw [heq] at he
  simp at he
  rcases he with rfl | rfl | rfl | rfl | rfl | rfl | rfl <;>
    exact ⟨by simp, by simp, by simp⟩

/-- Witness for C5 at a concrete configuration and world. -/
theorem C5_witness :
    runAction { targetBranch := some "master", apply := true }
        { wBase with hasChanges := true } =
      ([Effect.validatePolicy,
        Effect.checkout (some "publish-0") (some true),
        Effect.applyChanges true,
        Effect.updateChangelog true,
        Effect.checkout (some "master") none,
        Effect.deleteBranch "publish-0" (some false),
        Effect.log "Rush publish finished successfully."], none) :=
  (C5_noop_when_no_uncommitted { targetBranch := some "master", apply := true }
    { wBase with hasChanges := true } rfl rfl rfl rfl rfl).1

/-- C2: in both run modes a version-control tag is created (an addTag call
with a true flag) only when the publish flag is set and no custom registry
URL is configured; with a registry URL configured, every addTag call carries
a false flag, whatever the publish flag. -/
theorem C2_tag_needs_publish_and_no_registry (cfg : PublishConfig) (w : World) :
    ∀ e ∈ (runAction cfg w).1, ∀ b n v, e = Effect.addTag b n v →
      (b = true → cfg.publish = true ∧ truthy cfg.registryUrl = false) ∧
      (truthy cfg.registryUrl = true → b = false) := by
  intro e he b n v hb
  have hflag : b = (cfg.publish && !truthy cfg.registryUrl) := by
    rcases mem_runAction_cases cfg w e he with ⟨hex, hat⟩ | ⟨_, kv, hkv, hekv⟩ |
        ⟨_, c, hc, hec⟩ | ⟨_, c, hc, hec⟩
    · subst hb
      simp [isAddTag] at hat
    · exact (mem_publishAllStep cfg w kv.1 kv.2 e hekv).2.1 b n v hb
    · rcases mem_publishChangesStep cfg w (hotfixOverride w) c e hec with
        ⟨msg, rfl⟩ | ⟨_, p, _, _, _, rfl⟩
      · cases hb
      · cases hb
    · rcases mem_gitAddTagsStep cfg w c e hec with ⟨_, heq⟩
      rw [heq] at hb
      injection hb with h1 _ _
      exact h1.symm
  subst hflag
  constructor
  · intro hb1
    refine ⟨(Bool.and_eq_true _ _ |>.mp hb1).1, ?_⟩
    simpa using (Bool.and_eq_true _ _ |>.mp hb1).2
  · intro hr
    simp [hr]

/-- Witness for C2, extracting the flag facts from an actual tag creation in
publish-all mode. -/
theorem C2_witness :
    (⟨false, none, true, false, false, none, none, none, false, none, none,
       true, none, none, none, false⟩ : PublishConfig).publish = true ∧
    truthy (⟨false, none, true, false, false, none, none, none, false, none, none,
       true, none, none, none, false⟩ : PublishConfig).registryUrl = false :=
  (C2_tag_needs_publish_and_no_registry _ { wBase with allPackages := [("a", projA)] }
    (Effect.addTag true "a" (some "1.0.0")) (by decide)
    true "a" (some "1.0.0") rfl).1 rfl

/-- C9: on a change list whose single record ranks above dependency but whose
package is absent from the project map, the publish pass skips it with a
diagnostic, yet the tag pass crashes with the TypeError of the unchecked
non-null assertion, and no tag is created. -/
theorem C9_tag_pass_crash :
    (runAction { targetBranch := some "master" }
        { wBase with
          hasChanges := true
          hasUncommittedChanges := true
          orderedChanges := [{ packageName := "a", changeType := some ChangeType.patch,
                               newVersion := some "1.0.1" }] }).2 =
      some (RunError.typeError "a") ∧
    Effect.log "Skip a. Failed to find its project." ∈
      (runAction { targetBranch := some "master" }
        { wBase with
          hasChanges := true
          hasUncommittedChanges := true
          orderedChanges := [{ packageName := "a", changeType := some ChangeType.patch,
                               newVersion := some "1.0.1" }] }).1 ∧
    ∀ e ∈ (runAction { targetBranch := some "master" }
        { wBase with
          hasChanges := true
          hasUncommittedChanges := true
          orderedChanges := [{ packageName := "a", changeType := some ChangeType.patch,
                               newVersion := some "1.0.1" }] }).1, isAddTag e = false := by
  decide

/-- On a map with no duplicate keys (the JS `Map` invariant), looking up the
key of a stored binding returns that binding. -/
theorem mapGet_of_mem_nodup (m : List (String × RushConfigurationProject))
    (hnodup : (m.map Prod.fst).Nodup) (kv : String × RushConfigurationProject)
    (hkv : kv ∈ m) : mapGet m kv.1 = some kv.2 := by
  induction m with
  | nil => simp at hkv
  | cons x xs ih =>
    rw [List.map_cons, List.nodup_cons] at hnodup
    rcases List.mem_cons.mp hkv with rfl | hkv
    · simp [mapGet]
    · have hx : (x.1 == kv.1) = false := by
        rw [beq_eq_false_iff_ne]
        intro hcontra
        exact hnodup.1 (hcontra ▸ List.mem_map_of_mem Prod.fst hkv)
      have hrec := ih hnodup.2 hkv
      rw [mapGet] at hrec ⊢
      rw [List.find?_cons_of_neg _ (by simp [hx])]
      exact hrec

/-- C1: in both run modes, a registry publish command is issued for a package
only when the package's descriptor has shouldPublish set and either the
force flag is set or the package's current version is absent from the
registry's published-versions list for it. -/
theorem C1_publish_only_when_allowed (cfg : PublishConfig) (w : World)
    (hnodup : (w.allPackages.map Prod.fst).Nodup) :
    ∀ e ∈ (runAction cfg w).1, ∀ se n args f, e = Effect.execPublish se n args f →
      ∃ p, mapGet w.allPackages n = some p ∧ p.shouldPublish = true ∧
        (cfg.force = true ∨ packageExists w p = false) := by
  intro e he se n args f hef
  rcases mem_runAction_cases cfg w e he with ⟨hex, _⟩ | ⟨_, kv, hkv, hekv⟩ |
      ⟨_, c, hc, hec⟩ | ⟨_, c, hc, hec⟩
  · subst hef
    simp [isExecPublish] at hex
  · have hstep := (mem_publishAllStep cfg w kv.1 kv.2 e hekv).1 (by subst hef; rfl)
    rcases hstep with ⟨hforce, p2, hp2, hsp2, heq⟩
    rw [hef] at heq
    injection heq with _ hn _ _
    subst hn
    have hsame : mapGet w.allPackages kv.1 = some kv.2 := mapGet_of_mem_nodup _ hnodup kv hkv
    rw [hsame] at hp2
    cases hp2
    exact ⟨kv.2, hsame, hsp2, hforce⟩
  · rcases mem_publishChangesStep cfg w (hotfixOverride w) c e hec with
      ⟨msg, hlog⟩ | ⟨_, p, hp, hsp, hex, heq⟩
    · rw [hef] at hlog
      cases hlog
    · rw [hef] at heq
      injection heq with _ hn _ _
      subst hn
      exact ⟨p, hp, hsp, Or.inr hex⟩
  · rcases mem_gitAddTagsStep cfg w c e hec with ⟨_, heq⟩
    rw [hef] at heq
    cases heq

/-- Witness for C1, at a publish-all run that publishes one fresh package. -/
theorem C1_witness :
    ∃ p, mapGet [("a", projA)] "a" = some p ∧ p.shouldPublish = true ∧
      ((⟨false, none, true, false, false, none, none, none, false, none, none,
          true, none, none, none, false⟩ : PublishConfig).force = true ∨
        packageExists { wBase with allPackages := [("a", projA)] } p = false) :=
  C1_publish_only_when_allowed _ { wBase with allPackages := [("a", projA)] }
    (by decide)
    (Effect.execPublish true "a" ["publish"] "pkgs/a") (by decide)
    true "a" ["publish"] "pkgs/a" rfl

/-- C4: in publish-changes mode, a change list with no record above
dependency issues no publish command at all; and a record above dependency
is skipped with a diagnostic when its project is missing or its version is
already in the registry, and otherwise the npm publish routine is invoked
on its project's folder. -/
theorem C4_publish_pass_dispatch (cfg : PublishConfig) (w : World) (ho : Option String)
    (hia : cfg.includeAll = false) :
    ((∀ c ∈ w.orderedChanges, changeTypeAboveDependency c.changeType = false) →
      ∀ e ∈ (runAction cfg w).1, isExecPublish e = false) ∧
    ∀ c : IChangeInfo, changeTypeAboveDependency c.changeType = true →
      (mapGet w.allPackages c.packageName = none →
        publishChangesStep cfg w ho c =
          ([Effect.log ("Skip " ++ c.packageName ++ ". Failed to find its project.")],
            none)) ∧
      (∀ p, mapGet w.allPackages c.packageName = some p → packageExists w p = true →
        publishChangesStep cfg w ho c =
          ([Effect.log ("Skip " ++ c.packageName ++ ". Package exists.")], none)) ∧
      (∀ p, mapGet w.allPackages c.packageName = some p → packageExists w p = false →
        publishChangesStep cfg w ho c = npmPublish cfg w ho c.packageName p.projectFolder) := by
  constructor
  · intro hnone e he
    rcases mem_runAction_cases cfg w e he with ⟨hex, _⟩ | ⟨hIA, _⟩ |
        ⟨_, c, hc, hec⟩ | ⟨_, c, hc, hec⟩
    · exact hex
    · rw [hia] at hIA
      cases hIA
    · have h0 := hnone c hc
      simp [publishChangesStep, h0] at hec
    · have h0 := hnone c hc
      simp [gitAddTagsStep, h0] at hec
  · intro c hdep
    refine ⟨?_, ?_, ?_⟩
    · intro hnone2
      simp [publishChangesStep, hdep, hnone2]
    · intro p hp hex
      simp [publishChangesStep, hdep, hp, hex]
    · intro p hp hex
      simp [publishChangesStep, hdep, hp, hex]

/-- Witness for C4, on the skip-missing-project branch for a minor change
with no matching descriptor. -/
theorem C4_witness :
    publishChangesStep ⟨false, none, false, false, false, none, none, none, false,
        none, none, false, none, none, none, false⟩ wBase none
      { packageName := "b", changeType := some ChangeType.minor, newVersion := none } =
      ([Effect.log ("Skip " ++ "b" ++ ". Failed to find its project.")], none) :=
  ((C4_publish_pass_dispatch _ wBase none rfl).2
    { packageName := "b", changeType := some ChangeType.minor, newVersion := none }
    (by decide)).1 rfl

/-- The auth-token argument can never read as `--tag` (its fixed parts are
already longer). -/
theorem authToken_ne_tag (registry token : String) :
    "--" ++ registry ++ ":_authToken=" ++ token ≠ "--tag" := by
  intro h
  have hlen := congrArg String.length h
  rw [String.length_append, String.length_append, String.length_append] at hlen
  have h1 : ("--" : String).length = 2 := rfl
  have h2 : (":_authToken=" : String).length = 12 := rfl
  have h3 : ("--tag" : String).length = 5 := rfl
  omega

/-- `tagOf` reads the value after the first `--tag`, skipping any earlier
arguments that are not `--tag`. -/
theorem tagOf_append_of_not_mem (l : List String) (x : String) (rest : List String)
    (h : "--tag" ∉ l) : tagOf (l ++ "--tag" :: x :: rest) = some x := by
  induction l with
  | nil => simp [tagOf]
  | cons a l ih =>
    have ha : a ≠ "--tag" := fun hc => h (hc ▸ List.mem_cons_self a l)
    simp only [List.cons_append, tagOf]
    rw [if_neg ha]
    exact ih (fun hc => h (List.mem_cons_of_mem a hc))

/-- The tag of the `_npmPublish` command line: the explicit `--tag` parameter
when given, otherwise the hotfix override. -/
theorem tagOf_npmPublishArgs (cfg : PublishConfig) (ho : Option String)
    (h : truthy cfg.npmTag = true ∨ truthy ho = true) :
    tagOf (npmPublishArgs cfg ho) =
      some (if truthy cfg.npmTag then cfg.npmTag.getD "" else ho.getD "") := by
  have hnotag : "--tag" ∉ npmPublishAuthArgs cfg := by
    unfold npmPublishAuthArgs
    split
    · intro hmem
      rcases List.mem_cons.mp hmem with hc | hc
      · exact absurd hc (by decide)
      · rcases List.mem_cons.mp hc with hc2 | hc2
        · exact authToken_ne_tag _ _ hc2.symm
        · simp at hc2
    · intro hmem
      rcases List.mem_cons.mp hmem with hc | hc
      · exact absurd hc (by decide)
      · simp at hc
  have htags : npmPublishTagArgs cfg ho =
      npmPublishAuthArgs cfg ++
        ["--tag", if truthy cfg.npmTag then cfg.npmTag.getD "" else ho.getD ""] := by
    unfold npmPublishTagArgs
    by_cases htag : truthy cfg.npmTag = true
    · rw [if_pos htag, if_pos htag]
    · rcases h with ht | ht
      · exact absurd ht htag
      · rw [if_neg htag, if_pos ht, if_neg htag]
  unfold npmPublishArgs
  rw [htags]
  by_cases hf : cfg.force = true
  · rw [if_pos hf, List.append_assoc]
    exact tagOf_append_of_not_mem _ _ _ hnotag
  · rw [if_neg hf]
    exact tagOf_append_of_not_mem _ _ [] hnotag

/-- C6: in publish-changes mode, when some change record has changeType
hotfix, every publish command's tag is the explicit `--tag` parameter when
one was given, and `hotfix` otherwise. -/
theorem C6_hotfix_tag_override (cfg : PublishConfig) (w : World)
    (hia : cfg.includeAll = false)
    (hhot : w.orderedChanges.any (fun c => c.changeType == some ChangeType.hotfix) = true) :
    ∀ e ∈ (runAction cfg w).1, ∀ se n args f, e = Effect.execPublish se n args f →
      tagOf args = some (if truthy cfg.npmTag then cfg.npmTag.getD "" else "hotfix") := by
  intro e he se n args f hef
  have hover : hotfixOverride w = some "hotfix" := by
    unfold hotfixOverride
    rw [if_pos hhot]
  rcases mem_runAction_cases cfg w e he with ⟨hex, _⟩ | ⟨hIA, _⟩ |
      ⟨_, c, hc, hec⟩ | ⟨_, c, hc, hec⟩
  · subst hef
    simp [isExecPublish] at hex
  · rw [hia] at hIA
    cases hIA
  · rcases mem_publishChangesStep cfg w (hotfixOverride w) c e hec with
      ⟨msg, hlog⟩ | ⟨_, p, _, _, _, heq⟩
    · rw [hef] at hlog
      cases hlog
    · rw [hef] at heq
      injection heq with _ _ hargs _
      subst hargs
      rw [hover, tagOf_npmPublishArgs cfg (some "hotfix") (Or.inr rfl)]
      rfl
  · rcases mem_gitAddTagsStep cfg w c e hec with ⟨_, heq⟩
    rw [hef] at heq
    cases heq

/-- Witness for C6, at a publish-changes run whose single change is a hotfix
of a publishable package and whose publish command carries --tag hotfix. -/
theorem C6_witness :
    tagOf ["publish", "--tag", "hotfix"] =
      some (if truthy (⟨false, none, false, false, false, none, none, none, false,
          none, none, false, none, none, none, false⟩ : PublishConfig).npmTag
        then (⟨false, none, false, false, false, none, none, none, false,
          none, none, false, none, none, none, false⟩ : PublishConfig).npmTag.getD ""
        else "hotfix") :=
  C6_hotfix_tag_override _
    { wBase with
      hasChanges := true
      hasUncommittedChanges := true
      allPackages := [("a", projA)]
      orderedChanges := [{ packageName := "a", changeType := some ChangeType.hotfix,
                           newVersion := some "1.0.1" }] }
    rfl (by decide)
    (Effect.execPublish false "a" ["publish", "--tag", "hotfix"] "pkgs/a") (by decide)
    false "a" ["publish", "--tag", "hotfix"] "pkgs/a" rfl

/-- The publish pass of `_publishChanges` never creates a tag. -/
theorem publishChangesStep_no_addTag (cfg : PublishConfig) (w : World) (ho : Option String)
    (c : IChangeInfo) : ∀ e ∈ (publishChangesStep cfg w ho c).1, isAddTag e = false := by
  intro e he
  rcases mem_publishChangesStep cfg w ho c e he with ⟨msg, rfl⟩ | ⟨_, p, _, _, _, rfl⟩ <;> rfl

/-- The tag pass of `_publishChanges` never issues a publish command. -/
theorem gitAddTagsStep_no_execPublish (cfg : PublishConfig) (w : World) (c : IChangeInfo) :
    ∀ e ∈ (gitAddTagsStep cfg w c).1, isExecPublish e = false := by
  intro e he
  rcases mem_gitAddTagsStep cfg w c e he with ⟨_, rfl⟩
  rfl

/-- In a list split as `a ++ b` with no tag in `a` and no publish command in
`b`, every publish command's index is smaller than every tag's index. -/
theorem get_split_lt (l a b : List Effect) (hl : l = a ++ b)
    (ha : ∀ e ∈ a, isAddTag e = false) (hb : ∀ e ∈ b, isExecPublish e = false) :
    ∀ i j, ∀ hi : i < l.length, ∀ hj : j < l.length,
      isExecPublish l[i] = true → isAddTag l[j] = true → i < j := by
  subst hl
  intro i j hi hj hpi htj
  have hlen : (a ++ b).length = a.length + b.length := List.length_append a b
  have hia2 : i < a.length := by
    by_contra hge
    push_neg at hge
    have hsub : i - a.length < b.length := by omega
    have hib : (a ++ b)[i] = b[i - a.length] := List.getElem_append_right hge
    rw [hib, hb _ (List.getElem_mem hsub)] at hpi
    simp at hpi
  have hja : a.length ≤ j := by
    by_contra hlt
    push_neg at hlt
    have hjb : (a ++ b)[j] = a[j] := List.getElem_append_left hlt
    rw [hjb, ha _ (List.getElem_mem hlt)] at htj
    simp at htj
  omega

/-- The `_publishChanges` trace splits into a prefix without tags followed by
a suffix without publish commands. -/
theorem publishChanges_split (cfg : PublishConfig) (w : World) :
    ∃ a b, (publishChanges cfg w).1 = a ++ b ∧
      (∀ e ∈ a, isAddTag e = false) ∧ (∀ e ∈ b, isExecPublish e = false) := by
  have hpp : ∀ e ∈ (foldSteps (publishChangesStep cfg w (hotfixOverride w))
      w.orderedChanges).1, isAddTag e = false := by
    intro e he
    rcases mem_foldSteps _ _ e he with ⟨c, _, hec⟩
    exact publishChangesStep_no_addTag cfg w _ c e hec
  have htt : ∀ e ∈ (foldSteps (gitAddTagsStep cfg w) w.orderedChanges).1,
      isExecPublish e = false := by
    intro e he
    rcases mem_foldSteps _ _ e he with ⟨c, _, hec⟩
    exact gitAddTagsStep_no_execPublish cfg w c e hec
  simp only [publishChanges]
  split
  · split
    · split
      next tp er heq =>
        refine ⟨_, [], (List.append_nil _).symm, ?_, by simp⟩
        intro e he
        rcases List.mem_append.mp he with he | he
        · simp at he
          rcases he with rfl | rfl | rfl | rfl | rfl | rfl <;> rfl
        · exact hpp e (by rw [heq]; exact he)
      next tp heq =>
        split
        next tt er2 heq2 =>
          refine ⟨_, tt, rfl, ?_, ?_⟩
          · intro e he
            rcases List.mem_append.mp he with he | he
            · simp at he
              rcases he with rfl | rfl | rfl | rfl | rfl | rfl <;> rfl
            · exact hpp e (by rw [heq]; exact he)
          · intro e he
            refine htt e ?_
            have h3 : gitAddTags cfg w w.orderedChanges =
                foldSteps (gitAddTagsStep cfg w) w.orderedChanges := rfl
            rw [← h3, heq2]
            exact he
        next tt heq2 =>
          refine ⟨_, _, List.append_assoc _ tt _, ?_, ?_⟩
          · intro e he
            rcases List.mem_append.mp he with he | he
            · simp at he
              rcases he with rfl | rfl | rfl | rfl | rfl | rfl <;> rfl
            · exact hpp e (by rw [heq]; exact he)
          · intro e he
            rcases List.mem_append.mp he with he | he
            · refine htt e ?_
              have h3 : gitAddTags cfg w w.orderedChanges =
                  foldSteps (gitAddTagsStep cfg w) w.orderedChanges := rfl
              rw [← h3, heq2]
              exact he
            · simp at he
              rcases he with rfl | rfl | rfl | rfl | rfl | rfl <;> rfl
    · refine ⟨_, [], (List.append_nil _).symm, ?_, by simp⟩
      intro e he
      simp at he
      rcases he with rfl | rfl | rfl | rfl | rfl <;> rfl
  · exact ⟨[], [], rfl, by simp, by simp⟩

/-- The whole run's trace in publish-changes mode splits the same way. -/
theorem runAction_changes_split (cfg : PublishConfig) (w : World)
    (hia : cfg.includeAll = false) :
    ∃ a b, (runAction cfg w).1 = a ++ b ∧
      (∀ e ∈ a, isAddTag e = false) ∧ (∀ e ∈ b, isExecPublish e = false) := by
  rcases publishChanges_split cfg w with ⟨a, b, hab, ha, hb⟩
  simp only [runAction]
  split
  · refine ⟨_, [], (List.append_nil _).symm, ?_, by simp⟩
    intro e he
    simp at he
    rcases he with rfl | rfl | rfl <;> rfl
  · split
    · refine ⟨_, [], (List.append_nil _).symm, ?_, by simp⟩
      intro e he
      simp at he
      subst he
      rfl
    · split
      next t er heq =>
        rw [hia] at heq
        simp only [Bool.false_eq_true, if_false] at heq
        have ht : t = a ++ b := by
          rw [← hab, heq]
        refine ⟨Effect.validatePolicy :: a, b, ?_, ?_, hb⟩
        · rw [ht]
          simp
        · intro e he
          rcases List.mem_cons.mp he with rfl | he
          · rfl
          · exact ha e he
      next t heq =>
        rw [hia] at heq
        simp only [Bool.false_eq_true, if_false] at heq
        have ht : t = a ++ b := by
          rw [← hab, heq]
        refine ⟨Effect.validatePolicy :: a,
          b ++ [Effect.log "Rush publish finished successfully."], ?_, ?_, ?_⟩
        · rw [ht]
          simp
        · intro e he
          rcases List.mem_cons.mp he with rfl | he
          · rfl
          · exact ha e he
        · intro e he
          rcases List.mem_append.mp he with he | he
          · exact hb e he
          · simp at he
            subst he
            rfl

/-- When the publish pass of `_publishChanges` aborts with an error, the
`_publishChanges` trace contains no tag creation. -/
theorem publishChanges_pass_err_no_tags (cfg : PublishConfig) (w : World) (er : RunError)
    (hp : (foldSteps (publishChangesStep cfg w (hotfixOverride w)) w.orderedChanges).2 =
      some er) :
    ∀ e ∈ (publishChanges cfg w).1, isAddTag e = false := by
  intro e he
  simp only [publishChanges] at he
  split at he
  · split at he
    · split at he
      next tp er2 heq =>
        rcases List.mem_append.mp he with he | he
        · simp at he
          rcases he with rfl | rfl | rfl | rfl | rfl | rfl <;> rfl
        · have h4 : e ∈ (foldSteps (publishChangesStep cfg w (hotfixOverride w))
              w.orderedChanges).1 := by
            rw [heq]
            exact he
          rcases mem_foldSteps _ _ e h4 with ⟨c, _, hec⟩
          exact publishChangesStep_no_addTag cfg w _ c e hec
      next tp heq =>
        rw [heq] at hp
        simp at hp
    · simp at he
      rcases he with rfl | rfl | rfl | rfl | rfl <;> rfl
  · simp at he

/-- C3: in publish-changes mode, every publish command precedes every tag
creation in the run's trace, and a run whose publish pass fails creates no
tag at all. -/
theorem C3_publish_before_tags (cfg : PublishConfig) (w : World)
    (hia : cfg.includeAll = false) :
    (∀ i j, ∀ hi : i < (runAction cfg w).1.length, ∀ hj : j < (runAction cfg w).1.length,
      isExecPublish (runAction cfg w).1[i] = true →
      isAddTag (runAction cfg w).1[j] = true → i < j) ∧
    (∀ er, (foldSteps (publishChangesStep cfg w (hotfixOverride w)) w.orderedChanges).2 =
        some er → ∀ e ∈ (runAction cfg w).1, isAddTag e = false) := by
  constructor
  · rcases runAction_changes_split cfg w hia with ⟨a, b, hab, ha, hb⟩
    exact get_split_lt _ a b hab ha hb
  · intro er hp e he
    simp only [runAction] at he
    split at he
    · simp at he
      rcases he with rfl | rfl | rfl <;> rfl
    · split at he
      · simp at he
        subst he
        rfl
      · split at he
        next t er2 heq =>
          rw [hia] at heq
          simp only [Bool.false_eq_true, if_false] at heq
          rcases List.mem_append.mp he with he | he
          · simp at he
            subst he
            rfl
          · have h4 : e ∈ (publishChanges cfg w).1 := by
              rw [heq]
              exact he
            exact publishChanges_pass_err_no_tags cfg w er hp e h4
        next t heq =>
          rw [hia] at heq
          simp only [Bool.false_eq_true, if_false] at heq
          rcases List.mem_append.mp he with he | he
          · rcases List.mem_append.mp he with he | he
            · simp at he
              subst he
              rfl
            · have h4 : e ∈ (publishChanges cfg w).1 := by
                rw [heq]
                exact he
              exact publishChanges_pass_err_no_tags cfg w er hp e h4
          · simp at he
            subst he
            rfl

/-- Fixture world for the C3 witness: one patch change of a publishable
package, with uncommitted changes to commit. -/
def wC3 : World :=
  { wBase with
    allPackages := [("a", projA)]
    hasChanges := true
    hasUncommittedChanges := true
    orderedChanges := [{ packageName := "a", changeType := some ChangeType.patch,
                         newVersion := some "1.0.1" }] }

/-- Witness for C3: in a concrete run the publish command sits at index 7,
the tag creation at index 8. -/
theorem C3_witness :
    isExecPublish ((runAction { targetBranch := some "master" } wC3).1.getD 7 Effect.pull)
        = true ∧
    isAddTag ((runAction { targetBranch := some "master" } wC3).1.getD 8 Effect.pull)
        = true ∧
    (7 : Nat) < 8 :=
  ⟨by decide, by decide,
    (C3_publish_before_tags { targetBranch := some "master" } wC3 rfl).1 7 8
      (by decide) (by decide) (by decide) (by decide)⟩

/-- `_npmPack` never returns silently: it either throws or runs a pack
command. -/
theorem npmPack_ne_silent (cfg : PublishConfig) (n : String) (p : RushConfigurationProject) :
    ¬(npmPack cfg n p = (([] : List Effect), (none : Option RunError))) := by
  unfold npmPack
  split
  · split
    · intro h
      simp at h
    · intro h
      simp at h
  · intro h
    simp at h

/-- The `_publishAll` loop body never pushes a branch. -/
theorem publishAll_fold_no_push (cfg : PublishConfig) (w : World) :
    ∀ br, Effect.push br ∉
      (foldStepsAll (fun kv => publishAllStep cfg w kv.1 kv.2) w.allPackages).1 := by
  intro br hmem
  rcases mem_foldStepsAll _ _ _ hmem with ⟨kv, _, hekv⟩
  exact (mem_publishAllStep cfg w kv.1 kv.2 _ hekv).2.2 br rfl

/-- On an error-free `_publishAll` loop, the `updated` flag records exactly
whether some binding qualified and took the publish branch. -/
theorem publishAll_fold_updated (cfg : PublishConfig) (w : World)
    (xs : List (String × RushConfigurationProject))
    (h : (foldStepsAll (fun kv => publishAllStep cfg w kv.1 kv.2) xs).2.1 = none) :
    (foldStepsAll (fun kv => publishAllStep cfg w kv.1 kv.2) xs).2.2 =
      xs.any (fun kv =>
        qualifies cfg kv.2 && !cfg.pack && (cfg.force || !packageExists w kv.2)) := by
  induction xs with
  | nil => simp [foldStepsAll]
  | cons x xs ih =>
    rw [foldStepsAll] at h ⊢
    rcases hx : publishAllStep cfg w x.1 x.2 with ⟨t, err, u⟩
    rw [hx] at h
    cases err with
    | some er => simp at h
    | none =>
      have h2 : (foldStepsAll (fun kv => publishAllStep cfg w kv.1 kv.2) xs).2.1 = none := by
        simpa using h
      have hu : u = (qualifies cfg x.2 && !cfg.pack && (cfg.force || !packageExists w x.2)) := by
        have h3 := publishAllStep_updated cfg w x.1 x.2 (by rw [hx])
        rw [hx] at h3
        exact h3
      simp [hx, List.any_cons, hu, ih h2]

/-- C7: a descriptor is processed by publish-all exactly when shouldPublish
holds and the version-policy filter is absent or equal to its policy name;
and on an error-free run the target branch is pushed exactly once precisely
when some package took the publish branch. -/
theorem C7_publishAll_qualify_and_push (cfg : PublishConfig) (w : World)
    (hr : cfg.regenerateChangelogs = false) (hia : cfg.includeAll = true) :
    (∀ n p, publishAllStep cfg w n p ≠ (([] : List Effect), (none : Option RunError), false) ↔
        qualifies cfg p = true) ∧
    ((runAction cfg w).2 = none →
      List.count (Effect.push cfg.targetBranch) (runAction cfg w).1 =
        if w.allPackages.any (fun kv =>
            qualifies cfg kv.2 && !cfg.pack && (cfg.force || !packageExists w kv.2))
        then 1 else 0) := by
  constructor
  · intro n p
    constructor
    · intro hne
      by_contra hq
      simp only [Bool.not_eq_true] at hq
      exact hne (by simp [publishAllStep, hq])
    · intro hq hstep
      simp only [publishAllStep, hq, if_true] at hstep
      by_cases hp : cfg.pack = true
      · rw [if_pos hp] at hstep
        rcases hnp : npmPack cfg n p with ⟨t, err⟩
        rw [hnp] at hstep
        have ht : t = [] := congrArg Prod.fst hstep
        have herr : err = none := congrArg (fun x => x.2.1) hstep
        subst ht
        subst herr
        exact npmPack_ne_silent cfg n p hnp
      · rw [if_neg hp] at hstep
        by_cases hf : (cfg.force || !packageExists w p) = true
        · rw [if_pos hf] at hstep
          split at hstep
          · have h5 := congrArg (fun x => x.2.1) hstep
            simp at h5
          · have h5 := congrArg (fun x => x.2.2) hstep
            simp at h5
        · rw [if_neg hf] at hstep
          have h5 := congrArg Prod.fst hstep
          simp at h5
  · intro hnone
    simp only [runAction, hr, Bool.false_eq_true, if_false, hia, if_true] at hnone ⊢
    split
    next er heq =>
      rw [heq] at hnone
      simp at hnone
    next heq =>
      rw [heq] at hnone
      split
      next t er heq2 =>
        rw [heq2] at hnone
        simp at hnone
      next t heq2 =>
        rw [heq2] at hnone
        simp only [publishAll] at heq2
        split at heq2
        next ft er2 u heq3 =>
          exact absurd (congrArg Prod.snd heq2) (by simp)
        next ft u heq3 =>
          have ht : t = Effect.log ("Rush publish starts with includeAll and version policy "
              ++ optValueText cfg.versionPolicy) :: ft ++
              (if u = true then [Effect.push cfg.targetBranch] else []) :=
            (congrArg Prod.fst heq2).symm
          have hnotin : Effect.push cfg.targetBranch ∉ ft := by
            intro hmem
            refine publishAll_fold_no_push cfg w cfg.targetBranch ?_
            rw [heq3]
            exact hmem
          have hcount0 : List.count (Effect.push cfg.targetBranch) ft = 0 :=
            List.count_eq_zero.mpr hnotin
          have hcond : (foldStepsAll (fun kv => publishAllStep cfg w kv.1 kv.2)
              w.allPackages).2.1 = none := by
            rw [heq3]
          have h5 := publishAll_fold_updated cfg w w.allPackages hcond
          rw [heq3] at h5
          have hu : u = w.allPackages.any (fun kv =>
              qualifies cfg kv.2 && !cfg.pack && (cfg.force || !packageExists w kv.2)) := h5
          rw [ht, ← hu]
          by_cases huu : u = true
          · simp [huu, List.count_append, List.count_cons, hcount0]
          · simp only [Bool.not_eq_true] at huu
            simp [huu, List.count_append, List.count_cons, hcount0]

/-- Fixture configuration for the C7 witness: include-all publish to the
default registry, target branch master. -/
def cfgC7 : PublishConfig :=
  ⟨false, some "master", true, false, false, none, none, none, false,
    none, none, true, none, none, none, false⟩

/-- Fixture world for the C7 witness: one publishable package, empty
registry. -/
def wC7 : World := { wBase with allPackages := [("a", projA)] }

/-- Witness for C7: one qualifying fresh package, and the target branch
pushed exactly once. -/
theorem C7_witness :
    ((publishAllStep cfgC7 wC7 "x" projA ≠
        (([] : List Effect), (none : Option RunError), false)) ↔
      qualifies cfgC7 projA = true) ∧
    List.count (Effect.push (some "master")) (runAction cfgC7 wC7).1 =
      if wC7.allPackages.any (fun kv =>
          qualifies cfgC7 kv.2 && !cfgC7.pack && (cfgC7.force || !packageExists wC7 kv.2))
      then 1 else 0 :=
  ⟨(C7_publishAll_qualify_and_push cfgC7 wC7 rfl rfl).1 "x" projA,
   (C7_publishAll_qualify_and_push cfgC7 wC7 rfl rfl).2 (by decide)⟩

/-- Counterexample to C8: with pack and include-all set and the invalid
release type "bogus", but no package qualifying, the run completes with no
error at all — the invalid release-type value is not fatal and is never
reported. -/
theorem C8_counterexample :
    truthy ({ pack := true, includeAll := true, releaseType := some "bogus" }
      : PublishConfig).releaseType = true ∧
    ({ pack := true, includeAll := true, releaseType := some "bogus" }
      : PublishConfig).releaseType ≠ some "internal" ∧
    ({ pack := true, includeAll := true, releaseType := some "bogus" }
      : PublishConfig).releaseType ≠ some "public" ∧
    ({ pack := true, includeAll := true, releaseType := some "bogus" }
      : PublishConfig).releaseType ≠ some "beta" ∧
    (runAction { pack := true, includeAll := true, releaseType := some "bogus" } wBase).2
      = none := by
  decide

/-- C8 (amended): a flag-combination error aborts the run before any effect;
an invalid release-type value aborts it before any mutating effect provided
some package qualifies in pack mode — with no qualifying package it goes
unreported. -/
theorem C8_config_errors (cfg : PublishConfig) (w : World)
    (hr : cfg.regenerateChangelogs = false) :
    (∀ err, validateCfg cfg = some err → runAction cfg w = ([Effect.validatePolicy], some err)) ∧
    (validateCfg cfg = none → cfg.includeAll = true → cfg.pack = true →
      truthy cfg.releaseType = true →
      (cfg.releaseType == some "internal") = false →
      (cfg.releaseType == some "public") = false →
      (cfg.releaseType == some "beta") = false →
      w.allPackages.any (fun kv => qualifies cfg kv.2) = true →
      (runAction cfg w).2 = some (RunError.configError
        ("Invalid release type \"" ++ cfg.releaseType.getD "" ++ "\"")) ∧
      ∀ e ∈ (runAction cfg w).1, isBenign e = true) := by
  constructor
  · intro err hverr
    simp [runAction, hr, hverr]
  · intro hv hia hpack h1 h2 h3 h4 hany
    have hfold : foldStepsAll (fun kv => publishAllStep cfg w kv.1 kv.2) w.allPackages =
        ([], some (RunError.configError
          ("Invalid release type \"" ++ cfg.releaseType.getD "" ++ "\"")), false) := by
      rw [foldStepsAll_const_err _ (fun kv => qualifies cfg kv.2) _
        (fun kv => publishAllStep_invalidRelease cfg w kv.1 kv.2 hpack h1 h2 h3 h4)
        w.allPackages]
      rw [hany]
      simp
    have hpa : publishAll cfg w =
        ([Effect.log ("Rush publish starts with includeAll and version policy "
            ++ optValueText cfg.versionPolicy)],
          some (RunError.configError
            ("Invalid release type \"" ++ cfg.releaseType.getD "" ++ "\""))) := by
      simp [publishAll, hfold]
    have hrun : runAction cfg w =
        ([Effect.validatePolicy,
          Effect.log ("Rush publish starts with includeAll and version policy "
            ++ optValueText cfg.versionPolicy)],
          some (RunError.configError
            ("Invalid release type \"" ++ cfg.releaseType.getD "" ++ "\""))) := by
      simp [runAction, hr, hv, hia, hpa]
    rw [hrun]
    refine ⟨rfl, ?_⟩
    intro e he
    simp at he
    rcases he with rfl | rfl <;> rfl

/-- Witness for C8's amended theorem: pack without include-all fails fast
with only the policy check performed. -/
theorem C8_witness :
    runAction { pack := true } wBase =
      ([Effect.validatePolicy],
        some (RunError.configError "--pack can only be used with --include-all")) :=
  (C8_config_errors { pack := true } wBase rfl).1 _ rfl

end PublishSpec
